import Mathlib

/-!
Shallow embedding of `src/reports.js` (dual-source annual-report scraper).

The effectful JavaScript is modelled by pure Lean functions over explicit
environments: the outcome of every external interaction (page navigation,
HTTP download, the file system) is a field of an environment record, and the
process-global `companyErrors` object is threaded through as an explicit
`Ledger` value.  Exceptions are modelled with `Except`; a `try`/`catch` in
the source becomes a `match` on the `Except` value.
-/

set_option maxHeartbeats 1000000

namespace Reports

/-- Characters removed by the filename-sanitizing regex in `reports.js`
(`replace` of the class backslash, slash, colon, double quote, star,
question mark, less-than, greater-than, pipe with the empty string). -/
def bannedChar (c : Char) : Bool :=
  c = '\\' || c = '/' || c = ':' || c = Char.ofNat 34 || c = '*' ||
  c = '?' || c = '<' || c = '>' || c = '|'

/-- Whitespace recognized by JavaScript `trim` (ASCII whitespace, NBSP and
the byte-order mark; the rest of the Unicode class never occurs here). -/
def isJsWs (c : Char) : Bool :=
  c = ' ' || c = '\t' || c = '\n' || c = '\r' || c = Char.ofNat 11 ||
  c = Char.ofNat 12 || c = Char.ofNat 160 || c = Char.ofNat 0xFEFF

/-- Remove every character of the banned class (the global regex `[...]+`
replace removes each maximal run, i.e. every banned character). -/
def removeBannedL (l : List Char) : List Char :=
  l.filter (fun c => !bannedChar c)

/-- JavaScript `trim` on a character list: drop whitespace from both ends. -/
def trimL (l : List Char) : List Char :=
  (l.dropWhile isJsWs).rdropWhile isJsWs

/-- JavaScript `String.prototype.trim`, as used on the symbol cell in `main`. -/
def trimJS (s : String) : String :=
  String.mk (trimL s.data)

/-- `filename.replace(/[\\/:"*?<>|]+/g, '').trim()` from `scrapeBseReports`
and `scrapeNseAnnualReports`. -/
def sanitize (s : String) : String :=
  String.mk (trimL (removeBannedL s.data))

/-- Value of a list of decimal digits. -/
def digitsToNat (l : List Char) : Nat :=
  l.foldl (fun a c => a * 10 + (c.toNat - '0'.toNat)) 0

/-- JavaScript `parseInt(s, 10)`: skip leading whitespace, read an optional
sign and then a maximal run of decimal digits; `none` models `NaN`. -/
def parseIntJS (s : String) : Option Int :=
  let l := s.data.dropWhile isJsWs
  let sgnRest : Int × List Char :=
    match l with
    | '-' :: t => (-1, t)
    | '+' :: t => (1, t)
    | _ => (1, l)
  let ds := sgnRest.2.takeWhile Char.isDigit
  if ds = [] then none else some (sgnRest.1 * (digitsToNat ds : Int))

/-- ASCII lower-casing of one character, as `toLowerCase` acts on the
ASCII range (the only range occurring in these urls and entry names). -/
def lcChar (c : Char) : Char :=
  if 65 ≤ c.toNat ∧ c.toNat ≤ 90 then Char.ofNat (c.toNat + 32) else c

/-- `String.prototype.toLowerCase` (ASCII range). -/
def lowerStr (s : String) : String :=
  String.mk (s.data.map lcChar)

/-- `String.prototype.endsWith`. -/
def endsWithL (post s : String) : Bool :=
  post.data.isSuffixOf s.data

/-- `String.prototype.startsWith`. -/
def startsWithL (pre s : String) : Bool :=
  pre.data.isPrefixOf s.data

/-- The global `companyErrors` object: an insertion-ordered table
`symbol -> (name, messages)`, modelled as an association list. -/
abbrev Ledger := List (String × String × List String)

/-- `addError(symbol, name, message)`: create the entry on first use
(keeping the name given then), append the message otherwise. -/
def addError (sym name msg : String) : Ledger → Ledger
  | [] => [(sym, name, [msg])]
  | (s, n, ms) :: rest =>
    if s = sym then (s, n, ms ++ [msg]) :: rest
    else (s, n, ms) :: addError sym name msg rest

/-- `true` when the ledger has an entry keyed by `s`. -/
def hasSymbol (s : String) : Ledger → Bool
  | [] => false
  | e :: rest => e.1 = s || hasSymbol s rest

/-- A company from the worklist: trimmed symbol plus optional name. -/
structure Company where
  symbol : String
  name : String
deriving DecidableEq

/-! ### Fetcher (`downloadFileWithSpeed`) -/

/-- Observable file-system actions performed by the fetcher. -/
inductive FsAction where
  | createWriteStream (path : String)
  | closeFile (path : String)
  | unlinkFile (path : String)
deriving DecidableEq

/-- Outcome of the underlying `https.get` request. -/
inductive DlOutcome where
  | requestError (msg : String)
  | status (code : Nat) (bodyOk : Bool)
deriving DecidableEq

/-- `downloadFileWithSpeed(url, dest)`: the write stream for `dest` is
created before the request is issued; a non-200 status, a response error or
a request error rejects, leaving the stream neither closed nor unlinked;
only the success path closes the file.  (The 1-second speed sampling is a
pure console side effect and is not modelled.) -/
def downloadFileWithSpeed (url dest : String) (out : DlOutcome) :
    List FsAction × Except String Unit :=
  let acts := [FsAction.createWriteStream dest]
  match out with
  | .requestError m => (acts, .error m)
  | .status code bodyOk =>
    if code ≠ 200 then
      (acts, .error ("Failed to download " ++ url ++ " (Status)"))
    else if bodyOk then
      (acts ++ [FsAction.closeFile dest], .ok ())
    else
      (acts, .error "response error")

/-! ### Archive Normalizer (`extractZipToPdf`) -/

/-- One archive entry: its name and its byte content. -/
structure ZipEntry where
  entryName : String
  data : List Nat
deriving DecidableEq

/-- Environment for one `extractZipToPdf` call: `statSize = none` models
`fs.statSync` throwing (missing file); `openResult = none` models the
`AdmZip` constructor throwing (corrupt archive); `writeOk` tells whether
`fs.writeFileSync` on a given output path succeeds; `unlinkOk` whether
`fs.unlinkSync` succeeds. -/
structure ZipEnv where
  statSize : Option Nat
  openResult : Option (List ZipEntry)
  writeOk : String → Bool
  unlinkOk : Bool

/-- `path.join(folderPath, `SYMBOL_YEAR.pdf`)`. -/
def outPath (folderPath sym yr : String) : String :=
  folderPath ++ "/" ++ sym ++ "_" ++ yr ++ ".pdf"

/-- The entry loop of `extractZipToPdf`: every entry whose name ends in
`.pdf` (case-insensitively) is written to the canonical output path; a
failing write throws, carrying the writes already performed. -/
def entryLoop (writeOk : String → Bool) (dest : String) :
    List ZipEntry → List (String × List Nat) → Bool →
    Except (List (String × List Nat)) (List (String × List Nat) × Bool)
  | [], ws, ex => .ok (ws, ex)
  | e :: rest, ws, ex =>
    if endsWithL ".pdf" (lowerStr e.entryName) then
      if writeOk dest then entryLoop writeOk dest rest (ws ++ [(dest, e.data)]) true
      else .error ws
    else entryLoop writeOk dest rest ws ex

/-- What one run of the normalizer did, as seen from outside. -/
structure ZipOutcome where
  writes : List (String × List Nat)
  openAttempted : Bool
  deletedArchive : Bool
deriving DecidableEq

/-- The `try` body of `extractZipToPdf`: stat, size guard, open, entry
loop, delete.  An error value is the thrown exception message together with
the writes already performed and whether the archive open was attempted. -/
def extractZipBody (fp sym yr : String) (env : ZipEnv) :
    Except (String × List (String × List Nat) × Bool) ZipOutcome :=
  match env.statSize with
  | none => .error ("ENOENT", [], false)
  | some n =>
    if n < 1024 then .ok ⟨[], false, false⟩
    else
      match env.openResult with
      | none => .error ("Invalid or unsupported zip format", [], true)
      | some entries =>
        match entryLoop env.writeOk (outPath fp sym yr) entries [] false with
        | .error w => .error ("write failed", w, true)
        | .ok (w, _extracted) =>
          if env.unlinkOk then .ok ⟨w, true, true⟩
          else .error ("unlink failed", w, true)

/-- Caller-visible result of `extractZipToPdf`; `raised` records whether an
exception escaped to the caller. -/
structure ZipResult where
  ledger : Ledger
  writes : List (String × List Nat)
  openAttempted : Bool
  deletedArchive : Bool
  raised : Bool

/-- `extractZipToPdf(zipFilePath, folderPath, symbol, year)`: run the body;
the surrounding `catch` converts any exception into a ledger entry for the
symbol (with empty name, as in the source) and returns normally. -/
def extractZipToPdf (zp fp sym yr : String) (env : ZipEnv) (L : Ledger) :
    ZipResult :=
  match extractZipBody fp sym yr env with
  | .ok o => ⟨L, o.writes, o.openAttempted, o.deletedArchive, false⟩
  | .error (msg, w, oa) =>
    ⟨addError sym "" ("Error extracting ZIP file " ++ zp ++ ": " ++ msg) L,
      w, oa, false, false⟩

/-! ### Primary source (`scrapeBseReports`) -/

/-- One row of the BSE results table, as the DOM evaluation sees it:
number of cells, text of the year cell, href of the anchor in the second
cell when one exists. -/
structure BseRow where
  cellCount : Nat
  yearText : String
  href : Option String
deriving DecidableEq

/-- The per-row guards of `extractAndDownloadReports`: at least two cells,
numeric year at least 2009, an anchor present, absolute https href.  A
passing row yields the download url and the sanitized filename. -/
def bseCandidate (sym : String) (r : BseRow) : Option (String × String) :=
  if r.cellCount < 2 then none
  else
    match parseIntJS r.yearText with
    | none => none
    | some y =>
      if y < 2009 then none
      else
        match r.href with
        | none => none
        | some url =>
          if startsWithL "https://" url then
            some (url, sanitize (sym ++ "_" ++ r.yearText ++ ".pdf"))
          else none

/-- Candidates of one table: the loop starts at index 1 (header skipped). -/
def bseCandidates (sym : String) (rows : List BseRow) : List (String × String) :=
  (rows.drop 1).filterMap (bseCandidate sym)

/-- Environment for one `scrapeBseReports` call: `navOk` covers navigation
and waits up to the results table; `rows` the first results page; `page2`
the second page when a next-page link exists, with `page2Ok` covering its
navigation; `dl` the outcome of `downloadFileWithSpeed` per url. -/
structure BseEnv where
  navOk : Bool
  rows : List BseRow
  page2 : Option (List BseRow)
  page2Ok : Bool
  dl : String → Bool

/-- One download attempt inside the BSE row loop: log the attempt to the
ledger, then either mark `downloadedAny` or ledger the failure. -/
def bseProcessCandidate (c : Company) (dl : String → Bool)
    (acc : Bool × Ledger) (cand : String × String) : Bool × Ledger :=
  let L := addError c.symbol c.name
    ("Downloading BSE report: " ++ cand.2 ++ "...") acc.2
  if dl cand.1 then (true, L)
  else (acc.1, addError c.symbol c.name
    ("Failed to download BSE report " ++ cand.2) L)

/-- `scrapeBseReports(page, company)`: the "Trying BSE reports" message is
appended before the `try` block and thus before any navigation; then the
row loop on page one, the optional single pagination step, and the outer
`catch` which ledgers the failure and returns `false`. -/
def scrapeBseReports (c : Company) (env : BseEnv) (L : Ledger) :
    Bool × Ledger :=
  let L := addError c.symbol c.name
    ("Trying BSE reports for " ++ c.name ++ " (" ++ c.symbol ++ ")") L
  if env.navOk then
    let acc := (bseCandidates c.symbol env.rows).foldl
      (bseProcessCandidate c env.dl) (false, L)
    match env.page2 with
    | none => acc
    | some rows2 =>
      if env.page2Ok then
        (bseCandidates c.symbol rows2).foldl (bseProcessCandidate c env.dl) acc
      else
        (false, addError c.symbol c.name
          ("BSE scraping failed for " ++ c.symbol) acc.2)
  else
    (false, addError c.symbol c.name
      ("BSE scraping failed for " ++ c.symbol) L)

/-! ### Fallback source (`scrapeNseAnnualReports`) -/

/-- One row of the NSE annual-reports table as the bulk `$$eval` maps it:
the year cell's text when present, the fourth-column anchor's href when
present. -/
structure NseRow where
  yearText : Option String
  url : Option String
deriving DecidableEq

/-- JavaScript truthiness of a nullable string. -/
def truthy : Option String → Bool
  | none => false
  | some s => s ≠ ""

/-- The `type` inferred from the url extension, lower-cased. -/
def nseType (url : String) : Option String :=
  let u := lowerStr url
  if endsWithL ".zip" u then some "zip"
  else if endsWithL ".pdf" u then some "pdf"
  else none

/-- The filter of the bulk extraction: truthy url, truthy year, recognized
type, numeric year at least 2009. -/
def nseKeep (r : NseRow) : Bool :=
  truthy r.url && truthy r.yearText &&
  (match r.url with
   | some u => (nseType u).isSome
   | none => false) &&
  (match r.yearText with
   | some y =>
     match parseIntJS y with
     | some n => decide (2009 ≤ n)
     | none => false
   | none => false)

/-- Environment for one `scrapeNseAnnualReports` call: `newPageOk` models
`browser.newPage` and `setViewport`, which run before the `try` and whose
exceptions escape to the caller; `navOk` covers navigation and waits;
`rows` the extracted table rows; `dl` the download outcome per url;
`zipEnv` the archive-normalizer environment per url; `renameOk` whether
`fs.renameSync` on a given filename succeeds. -/
structure NseEnv where
  newPageOk : Bool
  navOk : Bool
  rows : List NseRow
  dl : String → Bool
  zipEnv : String → ZipEnv
  renameOk : String → Bool

/-- The per-report body of the NSE download loop, with its own `catch`:
download, then normalize a zip or canonically rename a pdf; any failure is
ledgered and the loop continues. -/
def processNseReport (symbol name folder : String) (env : NseEnv)
    (L : Ledger) (r : NseRow) : Ledger :=
  match r.url, r.yearText with
  | some u, some yt =>
    match nseType u with
    | some ty =>
      let filename := sanitize (symbol ++ "_" ++ yt ++ "." ++ ty)
      let destPath := folder ++ "/" ++ filename
      if env.dl u then
        if ty = "zip" then
          (extractZipToPdf destPath folder symbol yt (env.zipEnv u) L).ledger
        else
          let newName := symbol ++ "_" ++ yt ++ ".pdf"
          if filename ≠ newName then
            if env.renameOk filename then L
            else addError symbol name
              ("Error downloading/extracting NSE report " ++ filename) L
          else L
      else
        addError symbol name
          ("Error downloading/extracting NSE report " ++ filename) L
    | none => L
  | _, _ => L

/-- `scrapeNseAnnualReports(browser, symbol, companyName)`: result `none`
models an exception escaping to the caller (thrown before the `try`);
`some b` the normal return.  Zero kept rows return `false` with no error;
otherwise every kept row is attempted and the function returns `true`
regardless of per-report outcomes. -/
def scrapeNseAnnualReports (symbol companyName : String) (env : NseEnv)
    (L : Ledger) : Option Bool × Ledger :=
  if env.newPageOk then
    if env.navOk then
      let kept := env.rows.filter nseKeep
      if kept = [] then (some false, L)
      else
        (some true,
          kept.foldl
            (processNseReport symbol companyName
              ("NSE_AnnualReports/" ++ symbol) env) L)
    else
      (some false, addError symbol companyName
        ("NSE scraping failed for " ++ symbol) L)
  else (none, L)

/-! ### Orchestrator (`main`) -/

/-- Per-company environment: the primary and fallback environments. -/
structure CompanyEnv where
  bse : BseEnv
  nse : NseEnv

/-- The body of one worklist iteration with its `try`/`catch`: primary
first; on failure the fallback; if both yield nothing, the terminal
"No reports found" message; an exception escaping the fallback is caught
here and ledgered as "Error processing". -/
def processCompany (c : Company) (env : CompanyEnv) (L : Ledger) : Ledger :=
  let bse := scrapeBseReports c env.bse L
  if bse.1 then bse.2
  else
    match scrapeNseAnnualReports c.symbol c.name env.nse bse.2 with
    | (some true, L2) => L2
    | (some false, L2) =>
      addError c.symbol c.name
        ("No reports found on BSE or NSE for " ++ c.symbol) L2
    | (none, L2) =>
      addError c.symbol c.name ("Error processing " ++ c.symbol) L2

/-- One spreadsheet row: the raw symbol cell (possibly absent) and the
company-name cell. -/
structure WorkRow where
  symbolCell : Option String
  nameCell : String

/-- The symbol handling at the top of the worklist loop: stringify and
trim the cell; a missing cell or an empty trimmed symbol skips the row. -/
def rowCompany (r : WorkRow) : Option Company :=
  match r.symbolCell with
  | none => none
  | some s =>
    let t := trimJS s
    if t = "" then none else some ⟨t, r.nameCell⟩

/-- The worklist loop of `main` over rows paired with their environments. -/
def mainLoop : List (WorkRow × CompanyEnv) → Ledger → Ledger
  | [], L => L
  | (r, env) :: rest, L =>
    match rowCompany r with
    | none => mainLoop rest L
    | some c => mainLoop rest (processCompany c env L)

/-- What `main` does after the loop. -/
inductive MainAction where
  | writeReport (rows : List (String × String × String))
  | successMessage
deriving DecidableEq

/-- The rows of `not_found_companies.xlsx`: one per ledger entry, in
insertion order, with the messages newline-joined. -/
def reportRows (L : Ledger) : List (String × String × String) :=
  L.map (fun e => (e.1, e.2.1, String.intercalate "\n" e.2.2))

/-- The end of `main`: write the failure report when the ledger is
non-empty, otherwise print the all-clear message. -/
def mainResult (items : List (WorkRow × CompanyEnv)) : MainAction :=
  let L := mainLoop items []
  if L = [] then .successMessage else .writeReport (reportRows L)

/-! ## Lemmas about trimming and sanitization -/

/-- A list that `dropWhile` leaves starting with `a` has `p a = false`. -/
theorem dropWhile_cons_not {α : Type} (p : α → Bool) :
    ∀ (l : List α) (a : α) (s : List α), l.dropWhile p = a :: s → p a = false := by
  intro l
  induction l with
  | nil => intro a s h; simp [List.dropWhile] at h
  | cons b t ih =>
    intro a s h
    by_cases hb : p b
    · rw [List.dropWhile_cons_of_pos hb] at h
      exact ih a s h
    · rw [List.dropWhile_cons_of_neg hb] at h
      cases h
      simpa using hb

/-- Every character of the trimmed list occurs in the original list. -/
theorem trimL_subset (l : List Char) : trimL l ⊆ l := fun _ hc =>
  (List.dropWhile_suffix isJsWs).sublist.subset
    ((List.rdropWhile_prefix isJsWs (l.dropWhile isJsWs)).sublist.subset hc)

/-- A trimmed list has no leading whitespace left. -/
theorem dropWhile_trimL (l : List Char) :
    (trimL l).dropWhile isJsWs = trimL l := by
  cases htl : trimL l with
  | nil => simp
  | cons a t =>
    obtain ⟨r, hr⟩ := List.rdropWhile_prefix isJsWs (l.dropWhile isJsWs)
    rw [trimL] at htl
    rw [htl] at hr
    have ha : isJsWs a = false := by
      refine dropWhile_cons_not isJsWs l a (t ++ r) ?_
      rw [← hr]
      exact List.cons_append a t r
    simp [List.dropWhile_cons, ha]

/-- Trimming is idempotent. -/
theorem trimL_trimL (l : List Char) : trimL (trimL l) = trimL l := by
  have h1 : trimL (trimL l) = ((trimL l).dropWhile isJsWs).rdropWhile isJsWs := rfl
  rw [h1, dropWhile_trimL]
  show ((l.dropWhile isJsWs).rdropWhile isJsWs).rdropWhile isJsWs = trimL l
  rw [List.rdropWhile_idempotent]
  rfl

/-- Removing the banned characters again after trimming changes nothing. -/
theorem removeBannedL_trimL (l : List Char) :
    removeBannedL (trimL (removeBannedL l)) = trimL (removeBannedL l) := by
  simp only [removeBannedL]
  apply List.filter_eq_self.mpr
  intro a ha
  exact (List.mem_filter.mp (trimL_subset _ ha)).2

/-- Claim C9: filename sanitization (stripping the characters banned on
filesystems and trimming surrounding whitespace, exactly the
`replace`+`trim` used for every constructed filename in `reports.js`) is
idempotent: sanitizing an already-sanitized name yields the same name. -/
theorem sanitize_idempotent : ∀ s : String, sanitize (sanitize s) = sanitize s := by
  intro s
  simp only [sanitize]
  rw [removeBannedL_trimL, trimL_trimL]

/-! ## Fetcher claims -/

/-- Claim C10: whenever `downloadFileWithSpeed` rejects — in particular
when the endpoint immediately answers with a non-200 status — the write
stream for the destination was already created beforehand, and the fetcher
neither closes nor unlinks the destination before rejecting, so a possibly
empty file is left at the destination path. -/
theorem download_failure_leaves_file (url dest : String) (out : DlOutcome)
    (e : String)
    (h : (downloadFileWithSpeed url dest out).2 = .error e) :
    FsAction.createWriteStream dest ∈ (downloadFileWithSpeed url dest out).1 ∧
    FsAction.closeFile dest ∉ (downloadFileWithSpeed url dest out).1 ∧
    FsAction.unlinkFile dest ∉ (downloadFileWithSpeed url dest out).1 := by
  cases out with
  | requestError m => simp [downloadFileWithSpeed]
  | status code bodyOk =>
    by_cases hc : code = 200
    · subst hc
      cases bodyOk
      · simp [downloadFileWithSpeed]
      · simp [downloadFileWithSpeed] at h
    · simp [downloadFileWithSpeed, hc]

/-- Witness for C10 at a concrete 404 response. -/
theorem download_failure_leaves_file_witness :
    FsAction.createWriteStream "d.pdf" ∈
      (downloadFileWithSpeed "https://u" "d.pdf" (DlOutcome.status 404 true)).1 ∧
    FsAction.closeFile "d.pdf" ∉
      (downloadFileWithSpeed "https://u" "d.pdf" (DlOutcome.status 404 true)).1 ∧
    FsAction.unlinkFile "d.pdf" ∉
      (downloadFileWithSpeed "https://u" "d.pdf" (DlOutcome.status 404 true)).1 :=
  download_failure_leaves_file "https://u" "d.pdf" (DlOutcome.status 404 true)
    ("Failed to download " ++ "https://u" ++ " (Status)") rfl

/-! ## Year-filter claim -/

/-- Claim C2: a reference reaches the download step only after passing the
year guard: for the primary source, `bseCandidate` succeeds only on rows
whose year text parses to an integer at least 2009; for the fallback,
`nseKeep` accepts only rows whose year text parses to an integer at least
2009.  (The download loops of both sources run exactly over these.) -/
theorem year_filter_before_fetch :
    (∀ (sym : String) (r : BseRow) (cand : String × String),
      bseCandidate sym r = some cand →
      ∃ y, parseIntJS r.yearText = some y ∧ 2009 ≤ y) ∧
    (∀ r : NseRow, nseKeep r = true →
      ∃ yt y, r.yearText = some yt ∧ parseIntJS yt = some y ∧ 2009 ≤ y) := by
  constructor
  · intro sym r cand h
    unfold bseCandidate at h
    by_cases h1 : r.cellCount < 2
    · simp [h1] at h
    · simp only [h1, if_false] at h
      cases hy : parseIntJS r.yearText with
      | none => rw [hy] at h; simp at h
      | some y =>
        rw [hy] at h
        by_cases h2 : y < 2009
        · simp [h2] at h
        · exact ⟨y, rfl, by omega⟩
  · intro r h
    obtain ⟨yto, uo⟩ := r
    cases yto with
    | none => simp [nseKeep, truthy] at h
    | some yt =>
      cases hy : parseIntJS yt with
      | none => simp [nseKeep, truthy, hy] at h
      | some n =>
        simp only [nseKeep, truthy, hy, Bool.and_eq_true, decide_eq_true_eq] at h
        exact ⟨yt, n, rfl, hy, h.2⟩

/-- Witness for C2 at a concrete BSE row and a concrete NSE row. -/
theorem year_filter_before_fetch_witness :
    (∃ y, parseIntJS (BseRow.mk 2 "2015" (some "https://a/b.pdf")).yearText
      = some y ∧ 2009 ≤ y) ∧
    (∃ yt y, (NseRow.mk (some "2012") (some "https://a/b.pdf")).yearText
      = some yt ∧ parseIntJS yt = some y ∧ 2009 ≤ y) :=
  ⟨year_filter_before_fetch.1 "S" (BseRow.mk 2 "2015" (some "https://a/b.pdf"))
      ("https://a/b.pdf", sanitize ("S" ++ "_" ++ "2015" ++ ".pdf")) rfl,
   year_filter_before_fetch.2 (NseRow.mk (some "2012") (some "https://a/b.pdf")) rfl⟩

/-! ## Archive Normalizer claims -/

/-- Claim C5: an archive under 1024 bytes is treated as malformed: the
normalizer returns without attempting to open the archive, writes no
entry, and leaves the archive file in place. -/
theorem small_archive_skips_extraction :
    ∀ (zp fp sym yr : String) (env : ZipEnv) (L : Ledger) (n : Nat),
      env.statSize = some n → n < 1024 →
      (extractZipToPdf zp fp sym yr env L).openAttempted = false ∧
      (extractZipToPdf zp fp sym yr env L).writes = [] ∧
      (extractZipToPdf zp fp sym yr env L).deletedArchive = false := by
  intro zp fp sym yr env L n h1 h2
  simp [extractZipToPdf, extractZipBody, h1, h2]

/-- Witness for C5 at a concrete 10-byte archive that does contain a pdf. -/
theorem small_archive_skips_extraction_witness :
    (extractZipToPdf "z.zip" "F" "S" "2010"
        (ZipEnv.mk (some 10) (some [ZipEntry.mk "a.pdf" [7]]) (fun _ => true) true)
        []).openAttempted = false ∧
    (extractZipToPdf "z.zip" "F" "S" "2010"
        (ZipEnv.mk (some 10) (some [ZipEntry.mk "a.pdf" [7]]) (fun _ => true) true)
        []).writes = [] ∧
    (extractZipToPdf "z.zip" "F" "S" "2010"
        (ZipEnv.mk (some 10) (some [ZipEntry.mk "a.pdf" [7]]) (fun _ => true) true)
        []).deletedArchive = false :=
  small_archive_skips_extraction "z.zip" "F" "S" "2010"
    (ZipEnv.mk (some 10) (some [ZipEntry.mk "a.pdf" [7]]) (fun _ => true) true)
    [] 10 rfl (by omega)

/-- Claim C6: the normalizer never raises to its caller: every failure of
the body (missing file, corrupt archive, write error, deletion error) is
caught and converted into a ledger entry for the given symbol. -/
theorem normalizer_never_raises :
    ∀ (zp fp sym yr : String) (env : ZipEnv) (L : Ledger),
      (extractZipToPdf zp fp sym yr env L).raised = false ∧
      (∀ msg w oa, extractZipBody fp sym yr env = .error (msg, w, oa) →
        (extractZipToPdf zp fp sym yr env L).ledger =
          addError sym "" ("Error extracting ZIP file " ++ zp ++ ": " ++ msg) L) := by
  intro zp fp sym yr env L
  constructor
  · cases h : extractZipBody fp sym yr env with
    | ok o => simp [extractZipToPdf, h]
    | error p =>
      obtain ⟨m, w, oa⟩ := p
      simp [extractZipToPdf, h]
  · intro msg w oa h
    simp [extractZipToPdf, h]

/-- Witness for C6 at a concrete missing archive file. -/
theorem normalizer_never_raises_witness :
    (extractZipToPdf "z.zip" "F" "S" "2011"
        (ZipEnv.mk none none (fun _ => true) true) []).raised = false ∧
    (extractZipToPdf "z.zip" "F" "S" "2011"
        (ZipEnv.mk none none (fun _ => true) true) []).ledger =
      addError "S" "" ("Error extracting ZIP file " ++ "z.zip" ++ ": " ++ "ENOENT") [] :=
  ⟨(normalizer_never_raises "z.zip" "F" "S" "2011"
      (ZipEnv.mk none none (fun _ => true) true) []).1,
   (normalizer_never_raises "z.zip" "F" "S" "2011"
      (ZipEnv.mk none none (fun _ => true) true) []).2 "ENOENT" [] false rfl⟩

/-- Environment of the C4 counterexample: a 2048-byte archive that opens
fine and contains a pdf entry, but whose deletion call fails. -/
def zipEnvNoUnlink : ZipEnv where
  statSize := some 2048
  openResult := some [ZipEntry.mk "report.PDF" [1, 2]]
  writeOk := fun _ => true
  unlinkOk := false

/-- Claim C4 counterexample: an archive of 2048 bytes whose entries are
fully processed — a pdf is even extracted — is nevertheless not deleted,
because the deletion call itself throws; so the under-1-KiB size guard is
not the only way the deletion is skipped. -/
theorem archive_not_deleted_counterexample :
    zipEnvNoUnlink.statSize = some 2048 ∧
    (extractZipToPdf "a.zip" "F" "S" "2012" zipEnvNoUnlink []).writes =
      [(outPath "F" "S" "2012", [1, 2])] ∧
    (extractZipToPdf "a.zip" "F" "S" "2012" zipEnvNoUnlink []).deletedArchive
      = false :=
  ⟨rfl, rfl, rfl⟩

/-- Claim C4 (amended): the archive is deleted exactly when the stat'd
size is at least 1 KiB and opening, entry processing and the deletion call
all complete without an exception; whether a pdf entry was extracted is
irrelevant.  Besides the size guard, any exception (corrupt archive,
failing write, failing delete) also skips the deletion. -/
theorem archive_deleted_iff :
    ∀ (zp fp sym yr : String) (env : ZipEnv) (L : Ledger),
      (extractZipToPdf zp fp sym yr env L).deletedArchive = true ↔
      ((∃ n, env.statSize = some n ∧ 1024 ≤ n) ∧
       (∃ es w ex, env.openResult = some es ∧
         entryLoop env.writeOk (outPath fp sym yr) es [] false = .ok (w, ex)) ∧
       env.unlinkOk = true) := by
  intro zp fp sym yr env L
  cases hs : env.statSize with
  | none => simp [extractZipToPdf, extractZipBody, hs]
  | some n =>
    by_cases hn : n < 1024
    · constructor
      · intro hdel
        exfalso
        simp [extractZipToPdf, extractZipBody, hs, if_pos hn] at hdel
      · rintro ⟨⟨n2, hn2, hge⟩, _, _⟩
        exfalso
        have : n = n2 := Option.some.inj hn2
        omega
    · cases ho : env.openResult with
      | none => simp [extractZipToPdf, extractZipBody, hs, if_neg hn, ho]
      | some es =>
        cases hloop : entryLoop env.writeOk (outPath fp sym yr) es [] false with
        | error w =>
          simp [extractZipToPdf, extractZipBody, hs, if_neg hn, ho, hloop]
        | ok p =>
          obtain ⟨w, ex⟩ := p
          by_cases hu : env.unlinkOk
          · constructor
            · intro _
              exact ⟨⟨n, rfl, by omega⟩, ⟨es, w, ex, rfl, hloop⟩, hu⟩
            · intro _
              simp [extractZipToPdf, extractZipBody, hs, if_neg hn, ho, hloop, hu]
          · simp [extractZipToPdf, extractZipBody, hs, if_neg hn, ho, hloop, hu]

/-! ## Fallback-source claims -/

/-- Fallback environment in which exactly one post-2009 reference is
discovered and every download fails. -/
def nseEnvAllFail : NseEnv where
  newPageOk := true
  navOk := true
  rows := [NseRow.mk (some "2010") (some "https://e.com/a.pdf")]
  dl := fun _ => false
  zipEnv := fun _ => ZipEnv.mk (some 2048) (some []) (fun _ => true) true
  renameOk := fun _ => true

/-- Claim C1 counterexample: with one discovered post-2009 reference whose
download fails — so every discovered reference fails to download — the
fallback still returns success, contradicting the claim that the fallback
attempt is then not Satisfied. -/
theorem nse_all_downloads_fail_still_satisfied :
    nseEnvAllFail.rows.filter nseKeep
      = [NseRow.mk (some "2010") (some "https://e.com/a.pdf")] ∧
    nseEnvAllFail.dl "https://e.com/a.pdf" = false ∧
    (scrapeNseAnnualReports "TCO" "T Co" nseEnvAllFail []).1 = some true :=
  ⟨rfl, rfl, rfl⟩

/-- Claim C1 (amended): the fallback attempt reports success exactly when
page creation and navigation succeed and at least one post-2009 reference
is discovered; per-reference download failures are ledgered but do not
affect the reported outcome.  Zero discovered references yield a
non-success return with no error entry, so the company's overall outcome
is still Unsatisfied when the primary also yielded nothing. -/
theorem nse_success_iff_discovery :
    ∀ (symbol companyName : String) (env : NseEnv) (L : Ledger),
      (scrapeNseAnnualReports symbol companyName env L).1 = some true ↔
      (env.newPageOk = true ∧ env.navOk = true ∧
        env.rows.filter nseKeep ≠ []) := by
  intro s n env L
  by_cases h1 : env.newPageOk
  · by_cases h2 : env.navOk
    · by_cases h3 : env.rows.filter nseKeep = []
      · simp [scrapeNseAnnualReports, h1, h2, h3]
      · simp [scrapeNseAnnualReports, h1, h2, h3]
    · simp [scrapeNseAnnualReports, h1, h2]
  · simp [scrapeNseAnnualReports, h1]

/-! ## Ledger lemmas -/

/-- `addError` always leaves an entry under the symbol it was given. -/
theorem hasSymbol_addError_self (s n m : String) (L : Ledger) :
    hasSymbol s (addError s n m L) = true := by
  induction L with
  | nil => simp [addError, hasSymbol]
  | cons e rest ih =>
    obtain ⟨s1, n1, ms1⟩ := e
    by_cases h : s1 = s
    · simp [addError, h, hasSymbol]
    · simp [addError, h, hasSymbol, ih]

/-- `addError` never removes a key from the ledger. -/
theorem hasSymbol_addError_mono (t s n m : String) (L : Ledger)
    (h : hasSymbol t L = true) : hasSymbol t (addError s n m L) = true := by
  induction L with
  | nil => simp [hasSymbol] at h
  | cons e rest ih =>
    obtain ⟨s1, n1, ms1⟩ := e
    simp only [hasSymbol, Bool.or_eq_true, decide_eq_true_eq] at h
    by_cases hs : s1 = s
    · simp only [addError, if_pos hs, hasSymbol, Bool.or_eq_true, decide_eq_true_eq]
      exact h
    · simp only [addError, if_neg hs, hasSymbol, Bool.or_eq_true, decide_eq_true_eq]
      cases h with
      | inl h => exact Or.inl h
      | inr h =>
        simp only [hasSymbol, Bool.or_eq_true, decide_eq_true_eq] at ih
        exact Or.inr (ih h)

/-- A ledger holding a key is non-empty. -/
theorem ledger_ne_nil_of_hasSymbol (s : String) (L : Ledger)
    (h : hasSymbol s L = true) : L ≠ [] := by
  intro hL
  rw [hL] at h
  simp [hasSymbol] at h

/-- The archive normalizer never removes a key from the ledger. -/
theorem hasSymbol_extract_mono (t zp fp sym yr : String) (env : ZipEnv)
    (L : Ledger) (h : hasSymbol t L = true) :
    hasSymbol t (extractZipToPdf zp fp sym yr env L).ledger = true := by
  cases hb : extractZipBody fp sym yr env with
  | ok o => simpa [extractZipToPdf, hb] using h
  | error p =>
    obtain ⟨m, w, oa⟩ := p
    simp only [extractZipToPdf, hb]
    exact hasSymbol_addError_mono _ _ _ _ _ h

/-- One NSE report attempt never removes a key from the ledger. -/
theorem hasSymbol_processNse_mono (t symbol name folder : String)
    (env : NseEnv) (L : Ledger) (r : NseRow) (h : hasSymbol t L = true) :
    hasSymbol t (processNseReport symbol name folder env L r) = true := by
  obtain ⟨yto, uo⟩ := r
  cases uo with
  | none => cases yto <;> exact h
  | some u =>
    cases yto with
    | none => exact h
    | some yt =>
      simp only [processNseReport]
      cases ht : nseType u with
      | none => exact h
      | some ty =>
        by_cases hd : env.dl u
        · simp only [hd, if_true]
          by_cases hz : ty = "zip"
          · simp only [hz, if_pos rfl]
            exact hasSymbol_extract_mono _ _ _ _ _ _ _ h
          · simp only [if_neg hz]
            split
            · split
              · exact h
              · exact hasSymbol_addError_mono _ _ _ _ _ h
            · exact h
        · simp only [Bool.not_eq_true] at hd
          simp only [hd, Bool.false_eq_true, if_false]
          exact hasSymbol_addError_mono _ _ _ _ _ h

/-- The NSE download loop never removes a key from the ledger. -/
theorem hasSymbol_foldNse_mono (t symbol name folder : String) (env : NseEnv) :
    ∀ (rs : List NseRow) (L : Ledger), hasSymbol t L = true →
      hasSymbol t (rs.foldl (processNseReport symbol name folder env) L) = true := by
  intro rs
  induction rs with
  | nil => intro L h; exact h
  | cons r rest ih =>
    intro L h
    exact ih _ (hasSymbol_processNse_mono t symbol name folder env L r h)

/-- The fallback source never removes a key from the ledger. -/
theorem hasSymbol_scrapeNse_mono (t symbol name : String) (env : NseEnv)
    (L : Ledger) (h : hasSymbol t L = true) :
    hasSymbol t (scrapeNseAnnualReports symbol name env L).2 = true := by
  unfold scrapeNseAnnualReports
  by_cases h1 : env.newPageOk
  · by_cases h2 : env.navOk
    · by_cases h3 : env.rows.filter nseKeep = []
      · simpa [h1, h2, h3] using h
      · simp only [h1, h2, if_true, h3, if_neg h3]
        exact hasSymbol_foldNse_mono t symbol name _ env _ L h
    · simp only [Bool.not_eq_true] at h2
      simp only [h1, if_true, h2, Bool.false_eq_true, if_false]
      exact hasSymbol_addError_mono _ _ _ _ _ h
  · simp only [Bool.not_eq_true] at h1
    simpa [h1] using h

/-- One BSE download attempt never removes a key from the ledger. -/
theorem hasSymbol_bseFold_mono (t : String) (c : Company) (dl : String → Bool) :
    ∀ (cands : List (String × String)) (acc : Bool × Ledger),
      hasSymbol t acc.2 = true →
      hasSymbol t ((cands.foldl (bseProcessCandidate c dl) acc)).2 = true := by
  intro cands
  induction cands with
  | nil => intro acc h; exact h
  | cons cand rest ih =>
    intro acc h
    refine ih _ ?_
    unfold bseProcessCandidate
    by_cases hd : dl cand.1
    · simp only [hd, if_true]
      exact hasSymbol_addError_mono _ _ _ _ _ h
    · simp only [Bool.not_eq_true] at hd
      simp only [hd, Bool.false_eq_true, if_false]
      exact hasSymbol_addError_mono _ _ _ _ _ (hasSymbol_addError_mono _ _ _ _ _ h)

/-- Any key present after the opening "Trying BSE reports" message is
still present in the final BSE ledger. -/
theorem hasSymbol_scrapeBse_from (t : String) (c : Company) (env : BseEnv)
    (L : Ledger)
    (h : hasSymbol t (addError c.symbol c.name
      ("Trying BSE reports for " ++ c.name ++ " (" ++ c.symbol ++ ")") L) = true) :
    hasSymbol t (scrapeBseReports c env L).2 = true := by
  unfold scrapeBseReports
  by_cases h1 : env.navOk
  · simp only [h1, if_true]
    cases hp : env.page2 with
    | none =>
      exact hasSymbol_bseFold_mono t c env.dl _ _ h
    | some rows2 =>
      by_cases h2 : env.page2Ok
      · simp only [h2, if_true]
        exact hasSymbol_bseFold_mono t c env.dl _ _
          (hasSymbol_bseFold_mono t c env.dl _ _ h)
      · simp only [Bool.not_eq_true] at h2
        simp only [h2, Bool.false_eq_true, if_false]
        exact hasSymbol_addError_mono _ _ _ _ _
          (hasSymbol_bseFold_mono t c env.dl _ _ h)
  · simp only [Bool.not_eq_true] at h1
    simp only [h1, Bool.false_eq_true, if_false]
    exact hasSymbol_addError_mono _ _ _ _ _ h

/-- The primary-source attempt always records its company's symbol. -/
theorem hasSymbol_scrapeBse_self (c : Company) (env : BseEnv) (L : Ledger) :
    hasSymbol c.symbol (scrapeBseReports c env L).2 = true :=
  hasSymbol_scrapeBse_from c.symbol c env L (hasSymbol_addError_self _ _ _ _)

/-- The primary-source attempt never removes a key from the ledger. -/
theorem hasSymbol_scrapeBse_mono (t : String) (c : Company) (env : BseEnv)
    (L : Ledger) (h : hasSymbol t L = true) :
    hasSymbol t (scrapeBseReports c env L).2 = true :=
  hasSymbol_scrapeBse_from t c env L (hasSymbol_addError_mono _ _ _ _ _ h)

/-- Any key present after the primary attempt survives the rest of the
company's iteration. -/
theorem hasSymbol_processCompany_from (t : String) (c : Company)
    (env : CompanyEnv) (L : Ledger)
    (h : hasSymbol t (scrapeBseReports c env.bse L).2 = true) :
    hasSymbol t (processCompany c env L) = true := by
  unfold processCompany
  cases h1 : (scrapeBseReports c env.bse L).1 with
  | true => simpa [h1] using h
  | false =>
    simp only [h1, Bool.false_eq_true, if_false]
    have h2 := hasSymbol_scrapeNse_mono t c.symbol c.name env.nse _ h
    rcases hm : scrapeNseAnnualReports c.symbol c.name env.nse
      (scrapeBseReports c env.bse L).2 with ⟨ob, L2⟩
    rw [hm] at h2
    cases ob with
    | none => exact hasSymbol_addError_mono _ _ _ _ _ h2
    | some b =>
      cases b with
      | true => exact h2
      | false => exact hasSymbol_addError_mono _ _ _ _ _ h2

/-- Processing a company always records its symbol in the ledger. -/
theorem hasSymbol_processCompany_self (c : Company) (env : CompanyEnv)
    (L : Ledger) : hasSymbol c.symbol (processCompany c env L) = true :=
  hasSymbol_processCompany_from c.symbol c env L (hasSymbol_scrapeBse_self c env.bse L)

/-- Processing a company never removes a key from the ledger. -/
theorem hasSymbol_processCompany_mono (t : String) (c : Company)
    (env : CompanyEnv) (L : Ledger) (h : hasSymbol t L = true) :
    hasSymbol t (processCompany c env L) = true :=
  hasSymbol_processCompany_from t c env L (hasSymbol_scrapeBse_mono t c env.bse L h)

/-- The worklist loop never removes a key from the ledger. -/
theorem hasSymbol_mainLoop_mono (t : String) :
    ∀ (items : List (WorkRow × CompanyEnv)) (L : Ledger),
      hasSymbol t L = true → hasSymbol t (mainLoop items L) = true := by
  intro items
  induction items with
  | nil => intro L h; exact h
  | cons p rest ih =>
    intro L h
    obtain ⟨r, env⟩ := p
    unfold mainLoop
    cases hc : rowCompany r with
    | none => exact ih _ h
    | some c => exact ih _ (hasSymbol_processCompany_mono t c env L h)

/-- Every processed company's symbol is a key of the final ledger. -/
theorem hasSymbol_mainLoop_of_mem :
    ∀ (items : List (WorkRow × CompanyEnv)) (L : Ledger)
      (p : WorkRow × CompanyEnv) (c : Company),
      p ∈ items → rowCompany p.1 = some c →
      hasSymbol c.symbol (mainLoop items L) = true := by
  intro items
  induction items with
  | nil =>
    intro L p c hp
    exact absurd hp (List.not_mem_nil p)
  | cons q rest ih =>
    intro L p c hp hc
    obtain ⟨r, env⟩ := q
    unfold mainLoop
    rcases List.mem_cons.mp hp with hq | hq
    · subst hq
      rw [hc]
      exact hasSymbol_mainLoop_mono _ rest _ (hasSymbol_processCompany_self c env L)
    · cases hrc : rowCompany r with
      | none => exact ih _ p c hq hc
      | some c2 => exact ih _ p c hq hc

/-- The failure report has a row for `s` exactly when the ledger has the
key `s`. -/
theorem reportRows_any_eq (s : String) (L : Ledger) :
    (reportRows L).any (fun row => row.1 = s) = hasSymbol s L := by
  induction L with
  | nil => rfl
  | cons e rest ih =>
    obtain ⟨s1, n1, ms1⟩ := e
    simp only [reportRows, List.map_cons, List.any_cons]
    simp only [reportRows] at ih
    rw [ih]
    rfl

/-! ## Orchestrator claims -/

/-- Claim C3: the primary attempt unconditionally records a "Trying BSE
reports" status before any navigation, so its company's symbol is always a
ledger key; hence once any company with a non-empty symbol is processed the
ledger is non-empty, the run ends by writing the failure report (the
success branch is unreachable), and every processed company — satisfied or
not — appears as a row of that report. -/
theorem trying_bse_fills_ledger :
    (∀ (c : Company) (env : BseEnv) (L : Ledger),
      hasSymbol c.symbol (scrapeBseReports c env L).2 = true) ∧
    (∀ items : List (WorkRow × CompanyEnv),
      (∃ p ∈ items, (rowCompany p.1).isSome) →
      mainLoop items [] ≠ [] ∧
      mainResult items = MainAction.writeReport (reportRows (mainLoop items [])) ∧
      (∀ p ∈ items, ∀ c : Company, rowCompany p.1 = some c →
        (reportRows (mainLoop items [])).any (fun row => row.1 = c.symbol) = true)) := by
  constructor
  · exact fun c env L => hasSymbol_scrapeBse_self c env L
  · intro items hex
    obtain ⟨p, hp, hsome⟩ := hex
    obtain ⟨c, hc⟩ := Option.isSome_iff_exists.mp hsome
    have hkey := hasSymbol_mainLoop_of_mem items [] p c hp hc
    have hne := ledger_ne_nil_of_hasSymbol _ _ hkey
    refine ⟨hne, ?_, ?_⟩
    · simp [mainResult, hne]
    · intro q hq c2 hc2
      rw [reportRows_any_eq]
      exact hasSymbol_mainLoop_of_mem items [] q c2 hq hc2

/-- Worklist row of the C3 witness. -/
def workRow0 : WorkRow := WorkRow.mk (some " TCO ") "T Co"

/-- Company environment of the C3 witness: the primary navigation fails
and the fallback discovers nothing. -/
def cEnv0 : CompanyEnv where
  bse := BseEnv.mk false [] none true (fun _ => false)
  nse := NseEnv.mk true true [] (fun _ => false)
    (fun _ => ZipEnv.mk none none (fun _ => true) true) (fun _ => true)

/-- Witness for C3 at a concrete one-row worklist. -/
theorem trying_bse_fills_ledger_witness :
    mainLoop [(workRow0, cEnv0)] [] ≠ [] ∧
    mainResult [(workRow0, cEnv0)] =
      MainAction.writeReport (reportRows (mainLoop [(workRow0, cEnv0)] [])) ∧
    (reportRows (mainLoop [(workRow0, cEnv0)] [])).any
      (fun row => row.1 = "TCO") = true := by
  have h := trying_bse_fills_ledger.2 [(workRow0, cEnv0)]
    ⟨(workRow0, cEnv0), List.mem_cons_self _ _, rfl⟩
  exact ⟨h.1, h.2.1, h.2.2 (workRow0, cEnv0) (List.mem_cons_self _ _)
    (Company.mk "TCO" "T Co") rfl⟩

/-- Claim C7: the worklist loop always proceeds to the next company, and
when an exception escapes a company's processing (the primary failed, then
the fallback threw before its own handler), it is caught in that
iteration and recorded in the ledger under the company's symbol. -/
theorem company_failure_isolated :
    (∀ (r : WorkRow) (env : CompanyEnv) (rest : List (WorkRow × CompanyEnv))
      (L : Ledger),
      mainLoop ((r, env) :: rest) L =
        mainLoop rest
          (match rowCompany r with
           | none => L
           | some c => processCompany c env L)) ∧
    (∀ (c : Company) (env : CompanyEnv) (L : Ledger),
      (scrapeBseReports c env.bse L).1 = false →
      (scrapeNseAnnualReports c.symbol c.name env.nse
        (scrapeBseReports c env.bse L).2).1 = none →
      processCompany c env L =
        addError c.symbol c.name ("Error processing " ++ c.symbol)
          (scrapeNseAnnualReports c.symbol c.name env.nse
            (scrapeBseReports c env.bse L).2).2 ∧
      hasSymbol c.symbol (processCompany c env L) = true) := by
  constructor
  · intro r env rest L
    cases hc : rowCompany r with
    | none => simp only [mainLoop, hc]
    | some c => simp only [mainLoop, hc]
  · intro c env L h1 h2
    have heq : processCompany c env L =
        addError c.symbol c.name ("Error processing " ++ c.symbol)
          (scrapeNseAnnualReports c.symbol c.name env.nse
            (scrapeBseReports c env.bse L).2).2 := by
      unfold processCompany
      simp only [h1, Bool.false_eq_true, if_false]
      rcases hm : scrapeNseAnnualReports c.symbol c.name env.nse
        (scrapeBseReports c env.bse L).2 with ⟨ob, L2⟩
      rw [hm] at h2
      simp only at h2
      subst h2
      rfl
    refine ⟨heq, ?_⟩
    rw [heq]
    exact hasSymbol_addError_self _ _ _ _

/-- Company environment of the C7 witness: the primary navigation fails
and the fallback's page creation throws. -/
def cEnvFail : CompanyEnv where
  bse := BseEnv.mk false [] none true (fun _ => false)
  nse := NseEnv.mk false true [] (fun _ => false)
    (fun _ => ZipEnv.mk none none (fun _ => true) true) (fun _ => true)

/-- Witness for C7 at a concrete company whose fallback throws. -/
theorem company_failure_isolated_witness :
    processCompany (Company.mk "GHOST" "G") cEnvFail [] =
      addError "GHOST" "G" ("Error processing " ++ "GHOST")
        (scrapeNseAnnualReports "GHOST" "G" cEnvFail.nse
          (scrapeBseReports (Company.mk "GHOST" "G") cEnvFail.bse []).2).2 ∧
    hasSymbol "GHOST" (processCompany (Company.mk "GHOST" "G") cEnvFail []) = true :=
  company_failure_isolated.2 (Company.mk "GHOST" "G") cEnvFail [] rfl rfl

/-- Claim C8: the failure report is written exactly when the ledger is
non-empty at end of run; with an empty ledger the success message is
emitted and no report is produced. -/
theorem report_iff_ledger_nonempty :
    ∀ items : List (WorkRow × CompanyEnv),
      ((∃ rows, mainResult items = MainAction.writeReport rows) ↔
        mainLoop items [] ≠ []) ∧
      (mainResult items = MainAction.successMessage ↔ mainLoop items [] = []) := by
  intro items
  by_cases h : mainLoop items [] = []
  · constructor
    · simp [mainResult, h]
    · simp [mainResult, h]
  · constructor
    · simp [mainResult, h]
    · simp [mainResult, h]

end Reports
